import Mathlib

/-!
# Verification of the CloudWatch-logs cache subsystem

A shallow embedding of `src/cache-manager.js` and
`src/servers/cloudwatch-logs.js` (the `/search` and `/download` HTTP
handlers), together with proofs of the specification's claims about
shard addressing, atomic download-and-write, idempotency, search
filtering/ordering, and age-based pruning.

Modelling conventions:
* Machine integers (epoch milliseconds, day indices) are `Int`.
* A calendar date is its UTC day index (`new Date(day * 86400000)`);
  the process is assumed to run with a UTC local timezone, so the
  `setHours(0,0,0,0)` truncation in `getDateRange` coincides with
  UTC-day truncation.
* A shard file is modelled as the list of its newline-delimited lines,
  each line being one deserialized `LogEvent`.  `JSON.stringify` of an
  event is a nonempty single-line string, so joining lines with `"\n"`
  and re-splitting recovers exactly the written lines; the
  line-counting used by the `skipped` branch of `/download`
  (`fileContent.trim() === '' ? 0 : fileContent.trim().split('\n').length`)
  therefore computes the length of the stored line list.
* The filesystem is explicit state: an association list from
  `(sanitized group directory, day index)` to file content, one map for
  canonical `<date>.log` files and one for `<date>.log.tmp` files, plus
  a flag recording whether the cache root directory exists.
* The remote capability (`client.send(FilterLogEventsCommand ...)`) is
  a function from the raw group name and day to the list of successive
  page responses the `do/while nextToken` loop would receive; each list
  element is one remote call, and an `Except.error` element is a call
  that throws.  Remote-call counts are threaded through every operation
  so that "without contacting the remote API" is provable.
-/

/-- One log event, as deserialized from a shard line.  Opaque remote
fields beyond the timestamp and message do not influence any claim and
are omitted. -/
structure LogEvent where
  timestamp : Int
  message : String
deriving DecidableEq, Repr

/-- A canonical shard address: the sanitized group directory name and
the UTC day index encoded in the `YYYY-MM-DD.log` filename. -/
abbrev ShardKey := String × Int

/-- The remote fetch capability: raw group name and day index to the
successive page responses of the pagination drain. -/
abbrev Client := String → Int → List (Except String (List LogEvent))

/-- One character of `logGroupName.replace(/[^a-zA-Z0-9_-]/g, '_')`. -/
def sanitizeChar (c : Char) : Char :=
  if ('a' ≤ c ∧ c ≤ 'z') ∨ ('A' ≤ c ∧ c ≤ 'Z') ∨ ('0' ≤ c ∧ c ≤ '9')
      ∨ c = '_' ∨ c = '-' then c else '_'

/-- The source's `sanitizeLogGroupName` from `cache-manager.js`: replace every
character outside `[a-zA-Z0-9_-]` with `_` (`String.map` over the
character sequence, written through `.data` so that it evaluates by
kernel reduction). -/
def sanitizeLogGroupName (logGroupName : String) : String :=
  ⟨logGroupName.data.map sanitizeChar⟩

/-- The canonical shard key used as a file path:
`<cacheRoot>/<sanitized>/<YYYY-MM-DD>.log`. -/
def keyOf (logGroupName : String) (day : Int) : ShardKey :=
  (sanitizeLogGroupName logGroupName, day)

/-- Model of `JSON.stringify(event)`: a single-line rendering.  String escaping
inside the message is elided, since no claim depends on it; all that
matters is that the rendering is nonempty and one line per event. -/
def encodeEvent (e : LogEvent) : String :=
  "\x7b\"timestamp\":" ++ toString e.timestamp ++
    ",\"message\":\"" ++ e.message ++ "\"\x7d"

/-- Size in bytes of a shard file: the length of the
`'\n'`-joined serialized events (`''` for the empty marker). -/
def shardByteSize (evs : List LogEvent) : Nat :=
  (String.intercalate "\n" (evs.map encodeEvent)).length

/-- The event count the `skipped` branch derives from an existing file:
`fileContent.trim() === '' ? 0 : fileContent.trim().split('\n').length`.
On a file written by `downloadAndCacheLogs` (one nonempty,
newline-free serialized event per line, or the empty marker) this is
the number of stored lines. -/
def countFileLines (evs : List LogEvent) : Nat :=
  evs.length

/-- The filesystem state visible to the cache subsystem. -/
structure FS where
  /-- whether the `log_cache` root directory exists -/
  rootExists : Bool
  /-- canonical `<sanitized>/<date>.log` files and their lines -/
  canon : List (ShardKey × List LogEvent)
  /-- temporary `<sanitized>/<date>.log.tmp` files -/
  temp : List (ShardKey × List LogEvent)
deriving DecidableEq

/-- Association-list lookup keyed by shard key. -/
def lookupFile (m : List (ShardKey × List LogEvent)) (k : ShardKey) :
    Option (List LogEvent) :=
  match m with
  | [] => none
  | (k', v) :: rest => if k' = k then some v else lookupFile rest k

/-- Remove every entry for one shard key (`fs.unlinkSync`). -/
def eraseFile (m : List (ShardKey × List LogEvent)) (k : ShardKey) :
    List (ShardKey × List LogEvent) :=
  m.filter (fun p => decide (p.1 ≠ k))

/-- Write one shard file (`fs.writeFileSync` / the rename target). -/
def setFile (m : List (ShardKey × List LogEvent)) (k : ShardKey)
    (v : List LogEvent) : List (ShardKey × List LogEvent) :=
  (k, v) :: eraseFile m k

/-- Model of `ensureLogGroupDir`: `mkdirSync(..., {recursive:true})` creates the
cache root (and the group directory) if absent; content is untouched. -/
def FS.mkdirFor (fs : FS) (_logGroupName : String) : FS :=
  ⟨true, fs.canon, fs.temp⟩

/-- Read a canonical shard file (`existsSync` + content). -/
def FS.getCanon (fs : FS) (k : ShardKey) : Option (List LogEvent) :=
  lookupFile fs.canon k

/-- Read a temporary shard file. -/
def FS.getTemp (fs : FS) (k : ShardKey) : Option (List LogEvent) :=
  lookupFile fs.temp k

/-- Write a canonical shard file. -/
def FS.setCanon (fs : FS) (k : ShardKey) (v : List LogEvent) : FS :=
  ⟨fs.rootExists, setFile fs.canon k v, fs.temp⟩

/-- Write a temporary shard file (`writeFileSync(tempPath, ...)`). -/
def FS.setTemp (fs : FS) (k : ShardKey) (v : List LogEvent) : FS :=
  ⟨fs.rootExists, fs.canon, setFile fs.temp k v⟩

/-- Model of `if (fs.existsSync(tempFilePath)) fs.unlinkSync(tempFilePath)` —
the handlers' cleanup of a stale temporary file. -/
def FS.delTempIfExists (fs : FS) (k : ShardKey) : FS :=
  if (fs.getTemp k).isSome then ⟨fs.rootExists, fs.canon, eraseFile fs.temp k⟩
  else fs

/-- Model of `fs.renameSync(tempPath, finalPath)`: the atomic publish.  The
temporary file disappears and the canonical file takes its content. -/
def FS.publish (fs : FS) (k : ShardKey) (v : List LogEvent) : FS :=
  ⟨fs.rootExists, setFile fs.canon k v, eraseFile fs.temp k⟩

/-- Milliseconds per day. -/
def msPerDay : Int := 86400000

/-- The UTC day index containing an epoch-milliseconds instant. -/
def dayIndexOf (t : Int) : Int := Int.fdiv t msPerDay

/-- The source's `getDateRange(startTime, endTime)` from `cloudwatch-logs.js`: start
at `startTime` truncated to its day boundary and push one day at a time
while `currentDate.getTime() <= endTime`.  The loop therefore produces
exactly the day indices `d` with
`dayIndexOf startTime ≤ d` and `d * msPerDay ≤ endTime`, i.e. the
closed interval `[dayIndexOf startTime, dayIndexOf endTime]`. -/
def getDateRange (startTime endTime : Int) : List Int :=
  let day0 := dayIndexOf startTime
  let lastDay := dayIndexOf endTime
  if lastDay < day0 then []
  else (List.range (lastDay - day0 + 1).toNat).map (fun i => day0 + (i : Int))

/-- The `(logGroupName, date)` pairs both handlers iterate, in loop
order: outer loop over `logGroupNames`, inner loop over the dates. -/
def requiredPairs (groups : List String) (startTime endTime : Int) :
    List (String × Int) :=
  groups.flatMap (fun g => (getDateRange startTime endTime).map (fun d => (g, d)))

/-- The pagination drain of `downloadAndCacheLogs`: consume the page
responses in order, accumulating `allEvents`; a throwing `client.send`
aborts the drain with that error.  The second component counts the
remote calls made. -/
def drainPages : List (Except String (List LogEvent)) →
    Except String (List LogEvent) × Nat
  | [] => (Except.ok [], 0)
  | Except.error e :: _ => (Except.error e, 1)
  | Except.ok evs :: rest =>
    match drainPages rest with
    | (Except.ok more, n) => (Except.ok (evs ++ more), n + 1)
    | (Except.error e, n) => (Except.error e, n + 1)

/-- The successful result of `downloadAndCacheLogs`. -/
structure DownloadOk where
  eventsCount : Nat
  fileSizeBytes : Nat
deriving DecidableEq, Repr

/-- The source's `downloadAndCacheLogs(logGroupName, date, client)` from
`cache-manager.js`.  The drain runs first; on a remote failure the
error is rethrown with no filesystem effect (the temp file is written
only after a fully successful drain).  On success with at least one
event, the serialized events are written to `<final>.tmp` and then
atomically renamed over the canonical path; with zero events a
zero-byte marker is written directly at the canonical path.  Returns
the result (or error), the new filesystem, and the remote calls made. -/
def downloadAndCacheLogs (logGroupName : String) (day : Int)
    (client : Client) (fs : FS) :
    Except String DownloadOk × FS × Nat :=
  match drainPages (client logGroupName day) with
  | (Except.error e, n) => (Except.error e, fs, n)
  | (Except.ok allEvents, n) =>
    -- getLogFilePath → ensureLogGroupDir (mkdir) happens here
    let fs1 := fs.mkdirFor logGroupName
    let k := keyOf logGroupName day
    if allEvents.length > 0 then
      let fs2 := fs1.setTemp k allEvents
      let fs3 := fs2.publish k allEvents
      (Except.ok ⟨allEvents.length, shardByteSize allEvents⟩, fs3, n)
    else
      (Except.ok ⟨0, 0⟩, fs1.setCanon k [], n)

/-- One per-shard result entry pushed by the `/download` handler. -/
structure ShardResult where
  logGroupName : String
  /-- modelled as the day index; the handler renders it `YYYY-MM-DD` -/
  date : Int
  status : String
  eventsCount : Option Nat
  fileSizeBytes : Option Nat
  error : Option String
deriving DecidableEq, Repr

/-- The body of the `/download` handler's per-(group, date) loop:
stale-temp cleanup, the `force || !alreadyCached` decision, the guarded
`downloadAndCacheLogs` call with its per-shard `try/catch`, and the
`skipped` branch that derives counts from the existing file. -/
def downloadShardStep (client : Client) (force : Bool)
    (logGroupName : String) (day : Int) (fs : FS) :
    ShardResult × FS × Nat :=
  -- getLogFilePath (line 91) creates the group directory
  let fs1 := (fs.mkdirFor logGroupName).delTempIfExists (keyOf logGroupName day)
  let alreadyCached := (fs1.getCanon (keyOf logGroupName day)).isSome
  if force || !alreadyCached then
    match downloadAndCacheLogs logGroupName day client fs1 with
    | (Except.ok r, fs2, n) =>
      -- `downloadResult.fileSizeBytes || fileSizeBytes`: 0 is falsy in
      -- JS, so a zero size falls back to statSync of the written file
      let statSize := match fs2.getCanon (keyOf logGroupName day) with
        | some evs => shardByteSize evs
        | none => 0
      (⟨logGroupName, day, "downloaded", some r.eventsCount,
        some (if r.fileSizeBytes = 0 then statSize else r.fileSizeBytes),
        none⟩, fs2, n)
    | (Except.error e, fs2, n) =>
      (⟨logGroupName, day, "error", none, none, some e⟩, fs2, n)
  else
    let evs := (fs1.getCanon (keyOf logGroupName day)).getD []
    (⟨logGroupName, day, "skipped", some (countFileLines evs),
      some (shardByteSize evs), none⟩, fs1, 0)

/-- The `/download` handler's full double loop over
`logGroupNames × dates`, collecting the per-shard results in order. -/
def runShards (client : Client) (force : Bool) :
    List (String × Int) → FS → List ShardResult × FS × Nat
  | [], fs => ([], fs, 0)
  | gd :: rest, fs =>
    match downloadShardStep client force gd.1 gd.2 fs with
    | (r, fs1, n1) =>
      match runShards client force rest fs1 with
      | (rs, fs2, n2) => (r :: rs, fs2, n1 + n2)

/-- The summary block computed by the `/download` handler. -/
structure Summary where
  totalDates : Nat
  downloaded : Nat
  skipped : Nat
  empty : Nat
  errors : Nat
deriving DecidableEq, Repr

/-- The `summary` block of the `/download` handler; note `empty` counts entries
with `eventsCount === 0` (error entries have no `eventsCount`). -/
def mkSummary (results : List ShardResult) : Summary :=
  ⟨results.length,
   (results.filter (fun r => decide (r.status = "downloaded"))).length,
   (results.filter (fun r => decide (r.status = "skipped"))).length,
   (results.filter (fun r => decide (r.eventsCount = some 0))).length,
   (results.filter (fun r => decide (r.status = "error"))).length⟩

/-- The JSON body of a successful `/download` response. -/
structure DlReport where
  status : String
  results : List ShardResult
  summary : Summary
deriving DecidableEq, Repr

/-- The observable `/download` response.  The outer `try/catch` (HTTP
500) is unreachable in the model: every per-shard failure is caught by
the inner per-shard `try`. -/
inductive DlResp where
  | badRequest : String → DlResp
  | ok : DlReport → DlResp
deriving DecidableEq, Repr

/-- The `/download` (materialize) handler: request validation (JS
falsiness makes `startTime`/`endTime` of `0` count as missing), date
expansion, the per-shard loop, and the summary with overall status
`partial` when any shard errored, else `completed`.  Returns the
response, the final filesystem, and the total remote calls made. -/
def downloadHandler (groups : List String) (startTime endTime : Int)
    (force : Bool) (client : Client) (fs : FS) : DlResp × FS × Nat :=
  if groups = [] then
    (DlResp.badRequest "logGroupNames must be a non-empty array", fs, 0)
  else if startTime = 0 ∨ endTime = 0 then
    (DlResp.badRequest "startTime and endTime are required", fs, 0)
  else
    match runShards client force (requiredPairs groups startTime endTime) fs with
    | (results, fs', n) =>
      (DlResp.ok ⟨if 0 < (results.filter (fun r => decide (r.status = "error"))).length
                  then "partial" else "completed",
                  results, mkSummary results⟩, fs', n)

/-- Whether the `filterPattern` request field is truthy in JS: present
and not the empty string. -/
def patActive (pat : Option String) : Bool :=
  match pat with
  | none => false
  | some p => decide (p ≠ "")

/-- The pattern string carried by a truthy `filterPattern`. -/
def patVal (pat : Option String) : String :=
  match pat with
  | none => ""
  | some p => p

/-- Whether `needle` occurs as a contiguous run inside `hay`. -/
def charsInfix (needle : List Char) : List Char → Bool
  | [] => needle.isEmpty
  | c :: rest => needle.isPrefixOf (c :: rest) || charsInfix needle rest

/-- Model of `new RegExp(pattern).test(message)`: an unanchored search
over the message.  For the literal (metacharacter-free) patterns the
specification's claims concern, this is substring containment. -/
def regexTest (pattern message : String) : Bool :=
  charsInfix pattern.data message.data

/-- The per-line body of `searchLocalLogs`: keep the event when it is
inside the closed `[startTime, endTime]` window and, when a filter
regex was compiled, the regex matches the message.  Blank lines and
lines that fail `JSON.parse` are skipped by the source and are not
representable here: a file's model already is its list of well-formed
event lines. -/
def scanShardLines (pat : Option String) (startTime endTime : Int) :
    List LogEvent → List LogEvent
  | [] => []
  | ev :: rest =>
    if startTime ≤ ev.timestamp ∧ ev.timestamp ≤ endTime then
      if patActive pat ∧ regexTest (patVal pat) ev.message = false then
        scanShardLines pat startTime endTime rest
      else ev :: scanShardLines pat startTime endTime rest
    else scanShardLines pat startTime endTime rest

/-- The source's `searchLocalLogs(logFilePaths, filterPattern, startTime, endTime)`
from `cache-manager.js`: stream each existing shard in path order
(missing paths are silently skipped), appending matches into one
accumulator, i.e. concatenation of the per-file matches. -/
def searchLocalLogs (paths : List ShardKey) (pat : Option String)
    (startTime endTime : Int) (fs : FS) : List LogEvent :=
  match paths with
  | [] => []
  | k :: rest =>
    match fs.getCanon k with
    | none => searchLocalLogs rest pat startTime endTime fs
    | some evs =>
      scanShardLines pat startTime endTime evs ++
        searchLocalLogs rest pat startTime endTime fs

/-- Ascending-by-timestamp comparison used by the `/search` handler's
`allEvents.sort((a, b) => a.timestamp - b.timestamp)`. -/
def tsLe (a b : LogEvent) : Bool :=
  decide (a.timestamp ≤ b.timestamp)

/-- The handler's sort.  ECMAScript `Array.prototype.sort` is required
to be stable, so it is modelled by the (stable) `List.mergeSort`. -/
def sortByTimestamp (l : List LogEvent) : List LogEvent :=
  l.mergeSort tsLe

/-- Model of `requiredFiles.add(filePath)`: a JS `Set` keeps first-insertion
order and drops duplicates. -/
def insertUnique (acc : List ShardKey) (k : ShardKey) : List ShardKey :=
  if k ∈ acc then acc else acc ++ [k]

/-- The `/search` handler's ensure loop over `logGroupNames × dates`:
delete a stale temp file, download the shard if (and only if) the
canonical file is absent, and record the path in the required set.  A
`downloadAndCacheLogs` failure aborts the whole loop (the handler's
single `try` spans all shards).  Accumulates the required paths, the
filesystem, and the remote-call count. -/
def ensureShardsLoop (client : Client) :
    List (String × Int) → FS → Nat → List ShardKey →
    Except String (List ShardKey) × FS × Nat
  | [], fs, n, acc => (Except.ok acc, fs, n)
  | gd :: rest, fs, n, acc =>
    let k := keyOf gd.1 gd.2
    let fs1 := (fs.mkdirFor gd.1).delTempIfExists k
    if (fs1.getCanon k).isSome then
      ensureShardsLoop client rest fs1 n (insertUnique acc k)
    else
      match downloadAndCacheLogs gd.1 gd.2 client fs1 with
      | (Except.ok _, fs2, m) =>
        ensureShardsLoop client rest fs2 (n + m) (insertUnique acc k)
      | (Except.error e, fs2, m) => (Except.error e, fs2, n + m)

/-- The observable `/search` response. -/
inductive SearchResp where
  | badRequest : String → SearchResp
  | ok : List LogEvent → SearchResp
  | serverError : String → SearchResp
deriving DecidableEq, Repr

/-- The `/search` (query) handler: validation, ensure-loop, scan of the
required files, and the final stable ascending sort.  Any shard
download failure is caught by the handler's single `catch` and becomes
the whole operation's HTTP 500. -/
def searchHandler (groups : List String) (startTime endTime : Int)
    (pat : Option String) (client : Client) (fs : FS) :
    SearchResp × FS × Nat :=
  if groups = [] then
    (SearchResp.badRequest "logGroupNames must be a non-empty array", fs, 0)
  else if startTime = 0 ∨ endTime = 0 then
    (SearchResp.badRequest "startTime and endTime are required", fs, 0)
  else
    match ensureShardsLoop client (requiredPairs groups startTime endTime) fs 0 [] with
    | (Except.error _, fs', n) => (SearchResp.serverError "Error searching logs", fs', n)
    | (Except.ok files, fs', n) =>
      (SearchResp.ok (sortByTimestamp (searchLocalLogs files pat startTime endTime fs')),
       fs', n)

/-- The source's `MAX_CACHE_AGE_DAYS` from `cache-manager.js`. -/
def maxCacheAgeDays : Int := 10

/-- The pruning cutoff: `new Date(now)` minus `MAX_CACHE_AGE_DAYS`
days, truncated with `setUTCHours(0,0,0,0)` — the UTC day index of
`now` minus the retention, as a day index. -/
def cutoffDayOf (now : Int) : Int :=
  dayIndexOf now - maxCacheAgeDays

/-- The source's `pruneCache()` from `cache-manager.js`, with the ambient clock made
an explicit `now` argument.  The components of the result are
1. the filesystem after the call: an absent cache root returns
   immediately (no-op); otherwise every shard file whose
   filename-encoded date is strictly earlier than the cutoff is
   unlinked;
2. the function's JS return value — `undefined` (`none`) on every
   path: the source never returns `prunedCount`;
3. the shard count stated by the function's completion log line
   (`'No old log files to prune.'` states zero, `'Removed N old log
   file(s).'` states `N`), or `none` when the absent-root early return
   happens before any count is computed or logged.
Directory iteration is flattened into the shard map; non-directory
entries and malformed filenames (whose date parse yields `NaN`, never
`< cutoff`) are skipped by the source and are not representable in the
shard map. -/
def pruneCache (now : Int) (fs : FS) : FS × Option Nat × Option Nat :=
  if fs.rootExists = false then (fs, none, none)
  else
    (⟨fs.rootExists,
      fs.canon.filter (fun p => !decide (p.1.2 < cutoffDayOf now)),
      fs.temp⟩,
     none,
     some (fs.canon.filter (fun p => decide (p.1.2 < cutoffDayOf now))).length)

/-- Concrete fixtures used by the closed witnesses below. -/
def evHello : LogEvent := ⟨5, "hello"⟩

/-- A remote capability answering every query with a single page
holding one event. -/
def okClient : Client := fun _ _ => [Except.ok [evHello]]

/-- The filesystem before the cache root has ever been created. -/
def emptyFS : FS := ⟨false, [], []⟩

/-- The filesystem after materializing group `"g"`, day `0` with
`okClient`. -/
def fs1Demo : FS := ⟨true, [(("g", 0), [evHello])], []⟩

/-- The report of that first materialize call. -/
def rep1Demo : DlReport :=
  ⟨"completed",
   [⟨"g", 0, "downloaded", some 1, some (shardByteSize [evHello]), none⟩],
   ⟨1, 1, 0, 0, 0⟩⟩

/-- A remote capability that throws on its first page. -/
def failClient : Client := fun _ _ => [Except.error "boom"]

/-- A remote capability answering every query with one empty page. -/
def emptyPageClient : Client := fun _ _ => [Except.ok []]

/-! ## Helper lemmas about the filesystem model -/

theorem lookupFile_setFile_self (m : List (ShardKey × List LogEvent))
    (k : ShardKey) (v : List LogEvent) :
    lookupFile (setFile m k v) k = some v := by
  simp [setFile, lookupFile]

theorem lookupFile_eraseFile_ne :
    ∀ (m : List (ShardKey × List LogEvent)) (k k' : ShardKey), k' ≠ k →
      lookupFile (eraseFile m k) k' = lookupFile m k'
  | [], _, _, _ => rfl
  | (pk, pv) :: rest, k, k', h => by
    by_cases hp : pk = k
    · have h1 : eraseFile ((pk, pv) :: rest) k = eraseFile rest k := by
        simp [eraseFile, hp]
      have h2 : pk ≠ k' := by rw [hp]; exact fun e => h e.symm
      rw [h1, lookupFile_eraseFile_ne rest k k' h]
      simp [lookupFile, h2]
    · have h1 : eraseFile ((pk, pv) :: rest) k = (pk, pv) :: eraseFile rest k := by
        simp [eraseFile, hp]
      rw [h1]
      by_cases hk' : pk = k'
      · simp [lookupFile, hk']
      · simp only [lookupFile, hk', if_false]
        exact lookupFile_eraseFile_ne rest k k' h

theorem lookupFile_eraseFile_self :
    ∀ (m : List (ShardKey × List LogEvent)) (k : ShardKey),
      lookupFile (eraseFile m k) k = none
  | [], _ => rfl
  | (pk, pv) :: rest, k => by
    by_cases hp : pk = k
    · have h1 : eraseFile ((pk, pv) :: rest) k = eraseFile rest k := by
        simp [eraseFile, hp]
      rw [h1]
      exact lookupFile_eraseFile_self rest k
    · have h1 : eraseFile ((pk, pv) :: rest) k = (pk, pv) :: eraseFile rest k := by
        simp [eraseFile, hp]
      rw [h1]
      simp only [lookupFile, hp, if_false]
      exact lookupFile_eraseFile_self rest k

theorem lookupFile_setFile_ne (m : List (ShardKey × List LogEvent))
    (k k' : ShardKey) (v : List LogEvent) (h : k' ≠ k) :
    lookupFile (setFile m k v) k' = lookupFile m k' := by
  have hkk : ¬ k = k' := fun e => h e.symm
  simp only [setFile, lookupFile, hkk, if_false]
  exact lookupFile_eraseFile_ne m k k' h

/-- Deleting a temp file never touches the canonical files. -/
theorem delTempIfExists_canon (fs : FS) (k : ShardKey) :
    (fs.delTempIfExists k).canon = fs.canon := by
  rw [FS.delTempIfExists]
  by_cases h : (fs.getTemp k).isSome
  · rw [if_pos h]
  · rw [if_neg h]

/-- Deleting a temp file never touches the root flag. -/
theorem delTempIfExists_root (fs : FS) (k : ShardKey) :
    (fs.delTempIfExists k).rootExists = fs.rootExists := by
  rw [FS.delTempIfExists]
  by_cases h : (fs.getTemp k).isSome
  · rw [if_pos h]
  · rw [if_neg h]

/-- After the handlers' temp cleanup the temp file is gone. -/
theorem delTempIfExists_getTemp_self (fs : FS) (k : ShardKey) :
    (fs.delTempIfExists k).getTemp k = none := by
  by_cases h : (fs.getTemp k).isSome
  · rw [FS.delTempIfExists, if_pos h]
    exact lookupFile_eraseFile_self fs.temp k
  · rw [FS.delTempIfExists, if_neg h]
    exact Option.not_isSome_iff_eq_none.mp h

/-- Temp cleanup leaves other temp files alone. -/
theorem delTempIfExists_getTemp_ne (fs : FS) (k k' : ShardKey) (h : k' ≠ k) :
    (fs.delTempIfExists k).getTemp k' = fs.getTemp k' := by
  by_cases hs : (fs.getTemp k).isSome
  · rw [FS.delTempIfExists, if_pos hs]
    exact lookupFile_eraseFile_ne fs.temp k k' h
  · rw [FS.delTempIfExists, if_neg hs]

/-- Temp cleanup of an already-absent temp file does nothing. -/
theorem delTempIfExists_of_none (fs : FS) (k : ShardKey)
    (h : fs.getTemp k = none) : fs.delTempIfExists k = fs := by
  rw [FS.delTempIfExists, if_neg]
  rw [h]
  simp

@[simp] theorem mkdirFor_canon (fs : FS) (g : String) :
    (fs.mkdirFor g).canon = fs.canon := rfl

@[simp] theorem mkdirFor_temp (fs : FS) (g : String) :
    (fs.mkdirFor g).temp = fs.temp := rfl

@[simp] theorem mkdirFor_root (fs : FS) (g : String) :
    (fs.mkdirFor g).rootExists = true := rfl

/-- The canonical lookup the per-shard step performs after its
directory creation and temp cleanup is the lookup in the incoming
state. -/
theorem stepPre_getCanon (fs : FS) (g : String) (k k' : ShardKey) :
    ((fs.mkdirFor g).delTempIfExists k).getCanon k' = lookupFile fs.canon k' := by
  rw [FS.getCanon, delTempIfExists_canon, mkdirFor_canon]

/-! ## Case equations for `downloadAndCacheLogs` -/

/-- Remote failure at any page: the error is rethrown and the
filesystem is untouched (the temp file is only ever written after a
fully successful drain). -/
theorem downloadAndCacheLogs_error_eq (g : String) (d : Int) (client : Client)
    (fs : FS) (e : String) (n : Nat)
    (h : drainPages (client g d) = (Except.error e, n)) :
    downloadAndCacheLogs g d client fs = (Except.error e, fs, n) := by
  unfold downloadAndCacheLogs
  rw [h]

/-- Successful drain with at least one event: write the temp file, then
atomically rename it over the canonical path. -/
theorem downloadAndCacheLogs_ok_pos (g : String) (d : Int) (client : Client)
    (fs : FS) (evs : List LogEvent) (n : Nat)
    (h : drainPages (client g d) = (Except.ok evs, n)) (hpos : evs.length > 0) :
    downloadAndCacheLogs g d client fs =
      (Except.ok ⟨evs.length, shardByteSize evs⟩,
       ((fs.mkdirFor g).setTemp (keyOf g d) evs).publish (keyOf g d) evs, n) := by
  unfold downloadAndCacheLogs
  rw [h]
  simp [hpos]

/-- Successful drain with zero events: write the empty marker directly
at the canonical path. -/
theorem downloadAndCacheLogs_ok_zero (g : String) (d : Int) (client : Client)
    (fs : FS) (n : Nat)
    (h : drainPages (client g d) = (Except.ok [], n)) :
    downloadAndCacheLogs g d client fs =
      (Except.ok ⟨0, 0⟩, (fs.mkdirFor g).setCanon (keyOf g d) [], n) := by
  unfold downloadAndCacheLogs
  rw [h]
  simp

/-! ## Case equations for the `/download` per-shard step -/

/-- With `force` false and the canonical shard present, the step skips:
counts are derived from the existing file, no remote call is made. -/
theorem downloadShardStep_cached (client : Client) (g : String) (d : Int)
    (fs : FS) (evs : List LogEvent)
    (h : lookupFile fs.canon (keyOf g d) = some evs) :
    downloadShardStep client false g d fs =
      (⟨g, d, "skipped", some (countFileLines evs), some (shardByteSize evs), none⟩,
       (fs.mkdirFor g).delTempIfExists (keyOf g d), 0) := by
  simp only [downloadShardStep]
  rw [stepPre_getCanon, h]
  simp

/-- With the download branch taken and the drain failing, the step
records an `error` entry; the canonical files are untouched. -/
theorem downloadShardStep_dl_error (client : Client) (force : Bool)
    (g : String) (d : Int) (fs : FS) (e : String) (n : Nat)
    (hcond : (force || !(lookupFile fs.canon (keyOf g d)).isSome) = true)
    (hdr : drainPages (client g d) = (Except.error e, n)) :
    downloadShardStep client force g d fs =
      (⟨g, d, "error", none, none, some e⟩,
       (fs.mkdirFor g).delTempIfExists (keyOf g d), n) := by
  simp only [downloadShardStep]
  rw [stepPre_getCanon, hcond]
  rw [downloadAndCacheLogs_error_eq _ _ _ _ _ _ hdr]
  simp

/-- Download branch, successful drain, at least one event. -/
theorem downloadShardStep_dl_pos (client : Client) (force : Bool)
    (g : String) (d : Int) (fs : FS) (evs : List LogEvent) (n : Nat)
    (hcond : (force || !(lookupFile fs.canon (keyOf g d)).isSome) = true)
    (hdr : drainPages (client g d) = (Except.ok evs, n)) (hpos : evs.length > 0) :
    downloadShardStep client force g d fs =
      (⟨g, d, "downloaded", some evs.length, some (shardByteSize evs), none⟩,
       ((((fs.mkdirFor g).delTempIfExists (keyOf g d)).mkdirFor g).setTemp
          (keyOf g d) evs).publish (keyOf g d) evs, n) := by
  simp only [downloadShardStep]
  rw [stepPre_getCanon, hcond]
  rw [downloadAndCacheLogs_ok_pos _ _ _ _ _ _ hdr hpos]
  have hk : (((((fs.mkdirFor g).delTempIfExists (keyOf g d)).mkdirFor g).setTemp
      (keyOf g d) evs).publish (keyOf g d) evs).getCanon (keyOf g d) = some evs := by
    rw [FS.getCanon]
    exact lookupFile_setFile_self _ _ _
  simp only [hk, ite_self]
  simp

/-- Download branch, successful drain, zero events: the empty marker is
published and the entry still reports status `downloaded`. -/
theorem downloadShardStep_dl_zero (client : Client) (force : Bool)
    (g : String) (d : Int) (fs : FS) (n : Nat)
    (hcond : (force || !(lookupFile fs.canon (keyOf g d)).isSome) = true)
    (hdr : drainPages (client g d) = (Except.ok [], n)) :
    downloadShardStep client force g d fs =
      (⟨g, d, "downloaded", some 0, some 0, none⟩,
       (((fs.mkdirFor g).delTempIfExists (keyOf g d)).mkdirFor g).setCanon
         (keyOf g d) [], n) := by
  simp only [downloadShardStep]
  rw [stepPre_getCanon, hcond]
  rw [downloadAndCacheLogs_ok_zero _ _ _ _ _ hdr]
  have hk : ((((fs.mkdirFor g).delTempIfExists (keyOf g d)).mkdirFor g).setCanon
      (keyOf g d) []).getCanon (keyOf g d) = some [] := by
    rw [FS.getCanon]
    exact lookupFile_setFile_self _ _ _
  simp only [hk]
  have : shardByteSize [] = 0 := rfl
  simp [this]

@[simp] theorem publish_canon (fs : FS) (k : ShardKey) (v : List LogEvent) :
    (fs.publish k v).canon = setFile fs.canon k v := rfl

@[simp] theorem setTemp_canon (fs : FS) (k : ShardKey) (v : List LogEvent) :
    (fs.setTemp k v).canon = fs.canon := rfl

@[simp] theorem setCanon_canon (fs : FS) (k : ShardKey) (v : List LogEvent) :
    (fs.setCanon k v).canon = setFile fs.canon k v := rfl

/-- With `force` false, the per-shard step never disturbs an existing
canonical shard file: it only ever writes a canonical path it found
absent. -/
theorem downloadShardStep_canon_preserve (client : Client) (g : String)
    (d : Int) (fs : FS) (k0 : ShardKey) (evs0 : List LogEvent)
    (h0 : lookupFile fs.canon k0 = some evs0) :
    lookupFile (downloadShardStep client false g d fs).2.1.canon k0 = some evs0 := by
  by_cases hsome : (lookupFile fs.canon (keyOf g d)).isSome
  · obtain ⟨evs, hevs⟩ := Option.isSome_iff_exists.mp hsome
    rw [downloadShardStep_cached client g d fs evs hevs]
    simpa [delTempIfExists_canon] using h0
  · have hnone : lookupFile fs.canon (keyOf g d) = none :=
      Option.not_isSome_iff_eq_none.mp hsome
    have hb : (false || !(lookupFile fs.canon (keyOf g d)).isSome) = true := by
      simp [hnone]
    have hkk : k0 ≠ keyOf g d := by
      intro e
      rw [← e, h0] at hnone
      cases hnone
    rcases hdr : drainPages (client g d) with ⟨res, n⟩
    cases res with
    | error e =>
      rw [downloadShardStep_dl_error client false g d fs e n hb hdr]
      simpa [delTempIfExists_canon] using h0
    | ok evs =>
      by_cases hpos : evs.length > 0
      · rw [downloadShardStep_dl_pos client false g d fs evs n hb hdr hpos]
        simp only [publish_canon, setTemp_canon, mkdirFor_canon, delTempIfExists_canon]
        rw [lookupFile_setFile_ne _ _ _ _ hkk]
        exact h0
      · have hz : evs = [] := List.length_eq_zero.mp (Nat.eq_zero_of_not_pos hpos)
        subst hz
        rw [downloadShardStep_dl_zero client false g d fs n hb hdr]
        simp only [setCanon_canon, mkdirFor_canon, delTempIfExists_canon]
        rw [lookupFile_setFile_ne _ _ _ _ hkk]
        exact h0

/-- A per-shard entry reporting status `downloaded` has the shard's
group and date, and after the step the canonical shard file holds
exactly the events whose count (and byte size) the entry reports. -/
theorem downloadShardStep_downloaded (client : Client) (force : Bool)
    (g : String) (d : Int) (fs : FS) (r : ShardResult) (fs' : FS) (n : Nat)
    (h : downloadShardStep client force g d fs = (r, fs', n))
    (hst : r.status = "downloaded") :
    r.logGroupName = g ∧ r.date = d ∧
    ∃ evs, lookupFile fs'.canon (keyOf g d) = some evs ∧
      r.eventsCount = some (countFileLines evs) ∧
      r.fileSizeBytes = some (shardByteSize evs) := by
  by_cases hforce : force = true
  · subst hforce
    have hb : (true || !(lookupFile fs.canon (keyOf g d)).isSome) = true := by simp
    rcases hdr : drainPages (client g d) with ⟨res, m⟩
    cases res with
    | error e =>
      rw [downloadShardStep_dl_error client true g d fs e m hb hdr] at h
      simp only [Prod.mk.injEq] at h
      obtain ⟨hr, -, -⟩ := h
      rw [← hr] at hst
      simp at hst
    | ok evs =>
      by_cases hpos : evs.length > 0
      · rw [downloadShardStep_dl_pos client true g d fs evs m hb hdr hpos] at h
        simp only [Prod.mk.injEq] at h
        obtain ⟨hr, hfs, -⟩ := h
        refine ⟨by rw [← hr], by rw [← hr], evs, ?_, by rw [← hr]; rfl, by rw [← hr]⟩
        rw [← hfs]
        simp only [publish_canon]
        exact lookupFile_setFile_self _ _ _
      · have hz : evs = [] := List.length_eq_zero.mp (Nat.eq_zero_of_not_pos hpos)
        subst hz
        rw [downloadShardStep_dl_zero client true g d fs m hb hdr] at h
        simp only [Prod.mk.injEq] at h
        obtain ⟨hr, hfs, -⟩ := h
        refine ⟨by rw [← hr], by rw [← hr], [], ?_, by rw [← hr]; rfl,
          by rw [← hr]; rfl⟩
        rw [← hfs]
        simp only [setCanon_canon]
        exact lookupFile_setFile_self _ _ _
  · have hforce' : force = false := by
      cases force
      · rfl
      · exact absurd rfl hforce
    subst hforce'
    by_cases hsome : (lookupFile fs.canon (keyOf g d)).isSome
    · obtain ⟨evs, hevs⟩ := Option.isSome_iff_exists.mp hsome
      rw [downloadShardStep_cached client g d fs evs hevs] at h
      simp only [Prod.mk.injEq] at h
      obtain ⟨hr, -, -⟩ := h
      rw [← hr] at hst
      simp at hst
    · have hnone : lookupFile fs.canon (keyOf g d) = none :=
        Option.not_isSome_iff_eq_none.mp hsome
      have hb : (false || !(lookupFile fs.canon (keyOf g d)).isSome) = true := by
        simp [hnone]
      rcases hdr : drainPages (client g d) with ⟨res, m⟩
      cases res with
      | error e =>
        rw [downloadShardStep_dl_error client false g d fs e m hb hdr] at h
        simp only [Prod.mk.injEq] at h
        obtain ⟨hr, -, -⟩ := h
        rw [← hr] at hst
        simp at hst
      | ok evs =>
        by_cases hpos : evs.length > 0
        · rw [downloadShardStep_dl_pos client false g d fs evs m hb hdr hpos] at h
          simp only [Prod.mk.injEq] at h
          obtain ⟨hr, hfs, -⟩ := h
          refine ⟨by rw [← hr], by rw [← hr], evs, ?_, by rw [← hr]; rfl, by rw [← hr]⟩
          rw [← hfs]
          simp only [publish_canon]
          exact lookupFile_setFile_self _ _ _
        · have hz : evs = [] := List.length_eq_zero.mp (Nat.eq_zero_of_not_pos hpos)
          subst hz
          rw [downloadShardStep_dl_zero client false g d fs m hb hdr] at h
          simp only [Prod.mk.injEq] at h
          obtain ⟨hr, hfs, -⟩ := h
          refine ⟨by rw [← hr], by rw [← hr], [], ?_, by rw [← hr]; rfl,
            by rw [← hr]; rfl⟩
          rw [← hfs]
          simp only [setCanon_canon]
          exact lookupFile_setFile_self _ _ _

@[simp] theorem runShards_nil (client : Client) (force : Bool) (fs : FS) :
    runShards client force [] fs = ([], fs, 0) := rfl

theorem runShards_cons (client : Client) (force : Bool) (gd : String × Int)
    (rest : List (String × Int)) (fs : FS) :
    runShards client force (gd :: rest) fs =
      ((downloadShardStep client force gd.1 gd.2 fs).1 ::
         (runShards client force rest
            (downloadShardStep client force gd.1 gd.2 fs).2.1).1,
       (runShards client force rest
          (downloadShardStep client force gd.1 gd.2 fs).2.1).2.1,
       (downloadShardStep client force gd.1 gd.2 fs).2.2 +
         (runShards client force rest
            (downloadShardStep client force gd.1 gd.2 fs).2.1).2.2) := rfl

/-- With `force` false, the whole `/download` loop preserves every
existing canonical shard file. -/
theorem runShards_canon_preserve (client : Client) :
    ∀ (pairs : List (String × Int)) (fs : FS) (k0 : ShardKey)
      (evs0 : List LogEvent), lookupFile fs.canon k0 = some evs0 →
      lookupFile (runShards client false pairs fs).2.1.canon k0 = some evs0
  | [], _, _, _, h0 => h0
  | gd :: rest, fs, k0, evs0, h0 => by
    rw [runShards_cons]
    exact runShards_canon_preserve client rest _ k0 evs0
      (downloadShardStep_canon_preserve client gd.1 gd.2 fs k0 evs0 h0)

/-- If every entry of a (`force` = false) `/download` loop reports
`downloaded`, the entries line up one-to-one with the requested
(group, date) pairs and the final filesystem holds, for each entry, a
canonical shard whose line count is the reported `eventsCount`. -/
theorem runShards_downloaded_spec (client : Client) :
    ∀ (pairs : List (String × Int)) (fs : FS),
      (∀ r ∈ (runShards client false pairs fs).1, r.status = "downloaded") →
      ((runShards client false pairs fs).1.map
          (fun r => (r.logGroupName, r.date)) = pairs ∧
       ∀ r ∈ (runShards client false pairs fs).1,
         ∃ evs, lookupFile (runShards client false pairs fs).2.1.canon
             (keyOf r.logGroupName r.date) = some evs ∧
           r.eventsCount = some (countFileLines evs))
  | [], fs, _ => by simp
  | gd :: rest, fs, hall => by
    rw [runShards_cons] at hall ⊢
    have hr0 : (downloadShardStep client false gd.1 gd.2 fs).1.status = "downloaded" :=
      hall _ (List.mem_cons_self _ _)
    obtain ⟨hg0, hd0, evs0, hlook0, hcnt0, -⟩ :=
      downloadShardStep_downloaded client false gd.1 gd.2 fs
        (downloadShardStep client false gd.1 gd.2 fs).1
        (downloadShardStep client false gd.1 gd.2 fs).2.1
        (downloadShardStep client false gd.1 gd.2 fs).2.2 rfl hr0
    have htail : ∀ r ∈ (runShards client false rest
        (downloadShardStep client false gd.1 gd.2 fs).2.1).1, r.status = "downloaded" :=
      fun r hr => hall r (List.mem_cons_of_mem _ hr)
    obtain ⟨ihmap, ihlook⟩ := runShards_downloaded_spec client rest
      (downloadShardStep client false gd.1 gd.2 fs).2.1 htail
    constructor
    · simp only [List.map_cons, ihmap, hg0, hd0]
    · intro r hr
      rcases List.mem_cons.mp hr with hhead | htl
      · subst hhead
        refine ⟨evs0, ?_, hcnt0⟩
        rw [hg0, hd0]
        exact runShards_canon_preserve client rest _ _ evs0 hlook0
      · exact ihlook r htl

/-- With `force` false and every requested shard already cached, the
`/download` loop skips every shard, derives each count from the
existing file, makes zero remote calls, and leaves the canonical
files unchanged. -/
theorem runShards_all_cached_spec (client : Client) :
    ∀ (pairs : List (String × Int)) (fs : FS),
      (∀ gd ∈ pairs, (lookupFile fs.canon (keyOf gd.1 gd.2)).isSome) →
      ((runShards client false pairs fs).1 =
         pairs.map (fun gd =>
           ⟨gd.1, gd.2, "skipped",
            some (countFileLines ((lookupFile fs.canon (keyOf gd.1 gd.2)).getD [])),
            some (shardByteSize ((lookupFile fs.canon (keyOf gd.1 gd.2)).getD [])),
            none⟩) ∧
       (runShards client false pairs fs).2.1.canon = fs.canon ∧
       (runShards client false pairs fs).2.2 = 0)
  | [], fs, _ => by simp
  | gd :: rest, fs, hc => by
    obtain ⟨evs, hevs⟩ := Option.isSome_iff_exists.mp
      (hc gd (List.mem_cons_self _ _))
    rw [runShards_cons]
    rw [downloadShardStep_cached client gd.1 gd.2 fs evs hevs]
    have hcanon1 : ((fs.mkdirFor gd.1).delTempIfExists (keyOf gd.1 gd.2)).canon
        = fs.canon := by
      rw [delTempIfExists_canon, mkdirFor_canon]
    have hcrest : ∀ gd' ∈ rest,
        (lookupFile ((fs.mkdirFor gd.1).delTempIfExists (keyOf gd.1 gd.2)).canon
          (keyOf gd'.1 gd'.2)).isSome := by
      intro gd' h'
      rw [hcanon1]
      exact hc gd' (List.mem_cons_of_mem _ h')
    obtain ⟨ihres, ihcanon, ihn⟩ := runShards_all_cached_spec client rest
      ((fs.mkdirFor gd.1).delTempIfExists (keyOf gd.1 gd.2)) hcrest
    refine ⟨?_, ?_, ?_⟩
    · simp only [List.map_cons, ihres, hevs, hcanon1, Option.getD_some]
    · simp only [ihcanon, hcanon1]
    · simp only [ihn]

/-- The `/download` handler with valid inputs, expressed through the
per-shard loop. -/
theorem downloadHandler_run (groups : List String) (st et : Int)
    (force : Bool) (client : Client) (fs : FS)
    (hg : ¬ groups = []) (ht : ¬ (st = 0 ∨ et = 0)) :
    downloadHandler groups st et force client fs =
      (DlResp.ok ⟨if 0 < ((runShards client force (requiredPairs groups st et) fs).1.filter
            (fun r => decide (r.status = "error"))).length then "partial" else "completed",
        (runShards client force (requiredPairs groups st et) fs).1,
        mkSummary (runShards client force (requiredPairs groups st et) fs).1⟩,
       (runShards client force (requiredPairs groups st et) fs).2.1,
       (runShards client force (requiredPairs groups st et) fs).2.2) := by
  rw [downloadHandler, if_neg hg, if_neg ht]

/-- C1 — Idempotence of `materialize`.  If a first `/download` call
with `force` false succeeds with every shard reported `downloaded`,
then a second call with identical arguments reports `skipped` for
every shard, makes zero remote calls, and reports for each shard the
same `eventsCount` (derived from the existing file) that the first
call reported as downloaded. -/
theorem materialize_idempotent
    (groups : List String) (st et : Int) (client : Client)
    (fs0 fs1 : FS) (rep1 : DlReport) (n1 : Nat)
    (h1 : downloadHandler groups st et false client fs0 = (DlResp.ok rep1, fs1, n1))
    (hall : ∀ r ∈ rep1.results, r.status = "downloaded") :
    ∃ rep2 fs2,
      downloadHandler groups st et false client fs1 = (DlResp.ok rep2, fs2, 0) ∧
      (∀ r ∈ rep2.results, r.status = "skipped") ∧
      rep2.results.map (fun r => (r.logGroupName, r.date, r.eventsCount)) =
        rep1.results.map (fun r => (r.logGroupName, r.date, r.eventsCount)) := by
  by_cases hg : groups = []
  · rw [downloadHandler, if_pos hg] at h1
    simp at h1
  · by_cases ht : st = 0 ∨ et = 0
    · rw [downloadHandler, if_neg hg, if_pos ht] at h1
      simp at h1
    · rw [downloadHandler_run groups st et false client fs0 hg ht] at h1
      simp only [Prod.mk.injEq, DlResp.ok.injEq] at h1
      obtain ⟨hrep, hfs, hn⟩ := h1
      have hres : rep1.results = (runShards client false (requiredPairs groups st et) fs0).1 := by
        rw [← hrep]
      have hall' : ∀ r ∈ (runShards client false (requiredPairs groups st et) fs0).1,
          r.status = "downloaded" := by
        rw [← hres]; exact hall
      obtain ⟨hmap, hlook⟩ :=
        runShards_downloaded_spec client (requiredPairs groups st et) fs0 hall'
      rw [hfs] at hlook
      -- every required shard is cached in fs1
      have hc : ∀ gd ∈ requiredPairs groups st et,
          (lookupFile fs1.canon (keyOf gd.1 gd.2)).isSome := by
        intro gd hgd
        rw [← hmap] at hgd
        obtain ⟨r, hrR, hproj⟩ := List.mem_map.mp hgd
        obtain ⟨evs, hle, -⟩ := hlook r hrR
        have : keyOf gd.1 gd.2 = keyOf r.logGroupName r.date := by
          rw [← hproj]
        rw [this, hle]
        rfl
      obtain ⟨ihres, ihcanon, ihn⟩ :=
        runShards_all_cached_spec client (requiredPairs groups st et) fs1 hc
      refine ⟨⟨if 0 < ((runShards client false (requiredPairs groups st et) fs1).1.filter
            (fun r => decide (r.status = "error"))).length then "partial" else "completed",
          (runShards client false (requiredPairs groups st et) fs1).1,
          mkSummary (runShards client false (requiredPairs groups st et) fs1).1⟩,
        (runShards client false (requiredPairs groups st et) fs1).2.1, ?_, ?_, ?_⟩
      · rw [downloadHandler_run groups st et false client fs1 hg ht, ihn]
      · intro r hr
        rw [ihres] at hr
        obtain ⟨gd, -, hgd⟩ := List.mem_map.mp hr
        rw [← hgd]
      · have step1 : rep1.results.map (fun r => (r.logGroupName, r.date, r.eventsCount)) =
            rep1.results.map (fun r => ((fun gd : String × Int =>
              (gd.1, gd.2, some (countFileLines
                ((lookupFile fs1.canon (keyOf gd.1 gd.2)).getD [])))) ∘
              (fun r : ShardResult => (r.logGroupName, r.date))) r) := by
          apply List.map_congr_left
          intro r hrR
          obtain ⟨evs, hle, hcnt⟩ := hlook r (by rw [← hres]; exact hrR)
          simp only [Function.comp]
          rw [hle]
          simp only [Option.getD_some]
          rw [hcnt]
        calc (runShards client false (requiredPairs groups st et) fs1).1.map
              (fun r => (r.logGroupName, r.date, r.eventsCount))
            = (requiredPairs groups st et).map (fun gd : String × Int =>
                (gd.1, gd.2, some (countFileLines
                  ((lookupFile fs1.canon (keyOf gd.1 gd.2)).getD [])))) := by
              rw [ihres, List.map_map]; rfl
          _ = ((runShards client false (requiredPairs groups st et) fs0).1.map
                (fun r => (r.logGroupName, r.date))).map (fun gd : String × Int =>
                (gd.1, gd.2, some (countFileLines
                  ((lookupFile fs1.canon (keyOf gd.1 gd.2)).getD [])))) := by
              rw [hmap]
          _ = (runShards client false (requiredPairs groups st et) fs0).1.map
                ((fun gd : String × Int =>
                  (gd.1, gd.2, some (countFileLines
                    ((lookupFile fs1.canon (keyOf gd.1 gd.2)).getD [])))) ∘
                  (fun r : ShardResult => (r.logGroupName, r.date))) := by
              rw [List.map_map]
          _ = rep1.results.map ((fun gd : String × Int =>
                  (gd.1, gd.2, some (countFileLines
                    ((lookupFile fs1.canon (keyOf gd.1 gd.2)).getD [])))) ∘
                  (fun r : ShardResult => (r.logGroupName, r.date))) := by
              rw [← hres]
          _ = rep1.results.map (fun r => (r.logGroupName, r.date, r.eventsCount)) :=
              step1.symm

/-- Witness for C1 at a concrete input: the first call on an empty
cache downloads one shard; the theorem then yields the second call's
all-skipped, zero-remote-call report. -/
theorem materialize_idempotent_witness :
    ∃ rep2 fs2,
      downloadHandler ["g"] 1 1 false okClient fs1Demo = (DlResp.ok rep2, fs2, 0) ∧
      (∀ r ∈ rep2.results, r.status = "skipped") ∧
      rep2.results.map (fun r => (r.logGroupName, r.date, r.eventsCount)) =
        rep1Demo.results.map (fun r => (r.logGroupName, r.date, r.eventsCount)) :=
  materialize_idempotent ["g"] 1 1 okClient emptyFS fs1Demo rep1Demo 1
    (by decide) (by decide)

/-- C2 — A remote failure at any page of a shard's drain makes that
shard's operation an error: `downloadAndCacheLogs` rethrows with the
filesystem fully unchanged (nothing is published at the canonical
path), and the `/download` per-shard step records an `error` entry
while the canonical files — in particular any pre-existing canonical
shard — are byte-for-byte those of the incoming state. -/
theorem download_failure_leaves_shard (client : Client) (force : Bool)
    (g : String) (d : Int) (fs : FS) (e : String) (n : Nat)
    (hcond : force = true ∨ lookupFile fs.canon (keyOf g d) = none)
    (hdr : drainPages (client g d) = (Except.error e, n)) :
    downloadAndCacheLogs g d client fs = (Except.error e, fs, n) ∧
    (downloadShardStep client force g d fs).1.status = "error" ∧
    (downloadShardStep client force g d fs).1.error = some e ∧
    (downloadShardStep client force g d fs).2.1.canon = fs.canon := by
  have hb : (force || !(lookupFile fs.canon (keyOf g d)).isSome) = true := by
    rcases hcond with hf | hn
    · rw [hf]; rfl
    · rw [hn]; simp
  refine ⟨downloadAndCacheLogs_error_eq g d client fs e n hdr, ?_, ?_, ?_⟩
  · rw [downloadShardStep_dl_error client force g d fs e n hb hdr]
  · rw [downloadShardStep_dl_error client force g d fs e n hb hdr]
  · rw [downloadShardStep_dl_error client force g d fs e n hb hdr]
    rw [delTempIfExists_canon, mkdirFor_canon]

/-- Witness for C2 at a concrete input: a pre-existing canonical shard
survives a failing re-download attempt untouched. -/
theorem download_failure_leaves_shard_witness :
    downloadAndCacheLogs "g" 0 failClient fs1Demo = (Except.error "boom", fs1Demo, 1) ∧
    (downloadShardStep failClient true "g" 0 fs1Demo).1.status = "error" ∧
    (downloadShardStep failClient true "g" 0 fs1Demo).1.error = some "boom" ∧
    (downloadShardStep failClient true "g" 0 fs1Demo).2.1.canon = fs1Demo.canon :=
  download_failure_leaves_shard failClient true "g" 0 fs1Demo "boom" 1
    (Or.inl rfl) rfl

/-- C3 (counterexample) — A shard whose full drain yields zero events
is reported with per-shard status `downloaded` (events count 0), not
`empty`: the `/download` handler never emits an `empty` status, the
word appears only as a summary counter. -/
theorem empty_shard_status_counterexample :
    (downloadHandler ["g"] 1 1 false (fun _ _ => [Except.ok []]) emptyFS).1 =
      DlResp.ok ⟨"completed",
        [⟨"g", 0, "downloaded", some 0, some 0, none⟩],
        ⟨1, 1, 0, 1, 0⟩⟩ ∧
    "downloaded" ≠ "empty" := ⟨by decide, by decide⟩

/-- C3 (amended) — A shard whose full drain yields zero events is
published as a zero-byte marker at the canonical path, its per-shard
entry reports status `downloaded` with `eventsCount` 0, and a later
non-forced call for the same shard skips (status `skipped`,
`eventsCount` 0) without contacting the remote API. -/
theorem empty_drain_publishes_marker (client : Client) (force : Bool)
    (g : String) (d : Int) (fs : FS) (n : Nat)
    (hcond : force = true ∨ lookupFile fs.canon (keyOf g d) = none)
    (hdr : drainPages (client g d) = (Except.ok [], n)) :
    (downloadShardStep client force g d fs).1.status = "downloaded" ∧
    (downloadShardStep client force g d fs).1.eventsCount = some 0 ∧
    lookupFile (downloadShardStep client force g d fs).2.1.canon (keyOf g d) =
      some [] ∧
    (downloadShardStep client false g d
        (downloadShardStep client force g d fs).2.1).1.status = "skipped" ∧
    (downloadShardStep client false g d
        (downloadShardStep client force g d fs).2.1).1.eventsCount = some 0 ∧
    (downloadShardStep client false g d
        (downloadShardStep client force g d fs).2.1).2.2 = 0 := by
  have hb : (force || !(lookupFile fs.canon (keyOf g d)).isSome) = true := by
    rcases hcond with hf | hn
    · rw [hf]; rfl
    · rw [hn]; simp
  have hstep := downloadShardStep_dl_zero client force g d fs n hb hdr
  have hmarker : lookupFile (downloadShardStep client force g d fs).2.1.canon
      (keyOf g d) = some [] := by
    rw [hstep]
    simp only [setCanon_canon]
    exact lookupFile_setFile_self _ _ _
  have hsecond := downloadShardStep_cached client g d
    (downloadShardStep client force g d fs).2.1 [] hmarker
  refine ⟨?_, ?_, hmarker, ?_, ?_, ?_⟩
  · rw [hstep]
  · rw [hstep]
  · rw [hsecond]
  · rw [hsecond]; rfl
  · rw [hsecond]

/-- Witness for the amended C3 at a concrete input. -/
theorem empty_drain_publishes_marker_witness :
    (downloadShardStep emptyPageClient false "g" 0 emptyFS).1.status = "downloaded" ∧
    (downloadShardStep emptyPageClient false "g" 0 emptyFS).1.eventsCount = some 0 ∧
    lookupFile (downloadShardStep emptyPageClient false "g" 0 emptyFS).2.1.canon
      (keyOf "g" 0) = some [] ∧
    (downloadShardStep emptyPageClient false "g" 0
        (downloadShardStep emptyPageClient false "g" 0 emptyFS).2.1).1.status = "skipped" ∧
    (downloadShardStep emptyPageClient false "g" 0
        (downloadShardStep emptyPageClient false "g" 0 emptyFS).2.1).1.eventsCount = some 0 ∧
    (downloadShardStep emptyPageClient false "g" 0
        (downloadShardStep emptyPageClient false "g" 0 emptyFS).2.1).2.2 = 0 :=
  empty_drain_publishes_marker emptyPageClient false "g" 0 emptyFS 1
    (Or.inr rfl) rfl

/-- Every per-shard step produces an entry carrying that shard's group
and date, whose status is `downloaded`, `skipped`, or `error` — and an
`error` entry always carries the failure detail. -/
theorem downloadShardStep_entry (client : Client) (force : Bool)
    (g : String) (d : Int) (fs : FS) :
    (downloadShardStep client force g d fs).1.logGroupName = g ∧
    (downloadShardStep client force g d fs).1.date = d ∧
    ((downloadShardStep client force g d fs).1.status = "downloaded" ∨
     (downloadShardStep client force g d fs).1.status = "skipped" ∨
     ((downloadShardStep client force g d fs).1.status = "error" ∧
      ((downloadShardStep client force g d fs).1.error).isSome)) := by
  by_cases hsome : (lookupFile fs.canon (keyOf g d)).isSome
  · obtain ⟨evs, hevs⟩ := Option.isSome_iff_exists.mp hsome
    by_cases hforce : force = true
    · subst hforce
      have hb : (true || !(lookupFile fs.canon (keyOf g d)).isSome) = true := by simp
      rcases hdr : drainPages (client g d) with ⟨res, m⟩
      cases res with
      | error e =>
        rw [downloadShardStep_dl_error client true g d fs e m hb hdr]
        exact ⟨rfl, rfl, Or.inr (Or.inr ⟨rfl, rfl⟩)⟩
      | ok evs' =>
        by_cases hpos : evs'.length > 0
        · rw [downloadShardStep_dl_pos client true g d fs evs' m hb hdr hpos]
          exact ⟨rfl, rfl, Or.inl rfl⟩
        · have hz : evs' = [] := List.length_eq_zero.mp (Nat.eq_zero_of_not_pos hpos)
          subst hz
          rw [downloadShardStep_dl_zero client true g d fs m hb hdr]
          exact ⟨rfl, rfl, Or.inl rfl⟩
    · have hforce' : force = false := by
        cases force
        · rfl
        · exact absurd rfl hforce
      subst hforce'
      rw [downloadShardStep_cached client g d fs evs hevs]
      exact ⟨rfl, rfl, Or.inr (Or.inl rfl)⟩
  · have hnone : lookupFile fs.canon (keyOf g d) = none :=
      Option.not_isSome_iff_eq_none.mp hsome
    have hb : (force || !(lookupFile fs.canon (keyOf g d)).isSome) = true := by
      simp [hnone]
    rcases hdr : drainPages (client g d) with ⟨res, m⟩
    cases res with
    | error e =>
      rw [downloadShardStep_dl_error client force g d fs e m hb hdr]
      exact ⟨rfl, rfl, Or.inr (Or.inr ⟨rfl, rfl⟩)⟩
    | ok evs' =>
      by_cases hpos : evs'.length > 0
      · rw [downloadShardStep_dl_pos client force g d fs evs' m hb hdr hpos]
        exact ⟨rfl, rfl, Or.inl rfl⟩
      · have hz : evs' = [] := List.length_eq_zero.mp (Nat.eq_zero_of_not_pos hpos)
        subst hz
        rw [downloadShardStep_dl_zero client force g d fs m hb hdr]
        exact ⟨rfl, rfl, Or.inl rfl⟩

/-- The `/download` loop produces exactly one entry per requested
(group, date) pair — in request order, regardless of any per-shard
failures — and error entries carry the failure detail. -/
theorem runShards_entries (client : Client) (force : Bool) :
    ∀ (pairs : List (String × Int)) (fs : FS),
      ((runShards client force pairs fs).1.map
          (fun r => (r.logGroupName, r.date)) = pairs ∧
       ∀ r ∈ (runShards client force pairs fs).1,
         (r.status = "downloaded" ∨ r.status = "skipped" ∨
          (r.status = "error" ∧ (r.error).isSome)))
  | [], fs => by simp
  | gd :: rest, fs => by
    rw [runShards_cons]
    obtain ⟨hg0, hd0, hst0⟩ := downloadShardStep_entry client force gd.1 gd.2 fs
    obtain ⟨ihmap, ihst⟩ := runShards_entries client force rest
      (downloadShardStep client force gd.1 gd.2 fs).2.1
    constructor
    · simp only [List.map_cons, ihmap, hg0, hd0]
    · intro r hr
      rcases List.mem_cons.mp hr with hhead | htl
      · subst hhead
        exact hst0
      · exact ihst r htl

/-- C6 — `materialize` attempts every (group, date) shard even when
some fail: the response always carries exactly one entry per requested
pair (in request order), an erroring shard's entry records the failure
detail, and the overall status is `partial` when at least one entry
errored and `completed` otherwise. -/
theorem materialize_attempts_all (groups : List String) (st et : Int)
    (force : Bool) (client : Client) (fs : FS)
    (hg : groups ≠ []) (hst : st ≠ 0) (het : et ≠ 0) :
    ∃ rep fs' n,
      downloadHandler groups st et force client fs = (DlResp.ok rep, fs', n) ∧
      rep.results.map (fun r => (r.logGroupName, r.date)) =
        requiredPairs groups st et ∧
      (∀ r ∈ rep.results, r.status = "error" → (r.error).isSome) ∧
      rep.status = (if 0 < (rep.results.filter
          (fun r => decide (r.status = "error"))).length
        then "partial" else "completed") := by
  have ht : ¬ (st = 0 ∨ et = 0) := by
    rintro (h | h)
    · exact hst h
    · exact het h
  obtain ⟨hmap, hshape⟩ :=
    runShards_entries client force (requiredPairs groups st et) fs
  refine ⟨⟨if 0 < ((runShards client force (requiredPairs groups st et) fs).1.filter
        (fun r => decide (r.status = "error"))).length then "partial" else "completed",
      (runShards client force (requiredPairs groups st et) fs).1,
      mkSummary (runShards client force (requiredPairs groups st et) fs).1⟩,
    (runShards client force (requiredPairs groups st et) fs).2.1,
    (runShards client force (requiredPairs groups st et) fs).2.2,
    downloadHandler_run groups st et force client fs hg ht, hmap, ?_, rfl⟩
  intro r hr hrerr
  rcases hshape r hr with h1 | h2 | h3
  · rw [hrerr] at h1
    simp at h1
  · rw [hrerr] at h2
    simp at h2
  · exact h3.2

/-- Witness for C6 at a concrete input: one group over a two-day
window where every download fails; both shards are still attempted and
reported, and the overall status is `partial`. -/
theorem materialize_attempts_all_witness :
    (["g"] ≠ ([] : List String) ∧ (1 : Int) ≠ 0 ∧ (86400001 : Int) ≠ 0) ∧
    ∃ rep fs' n,
      downloadHandler ["g"] 1 86400001 false failClient emptyFS =
        (DlResp.ok rep, fs', n) ∧
      rep.results.map (fun r => (r.logGroupName, r.date)) =
        requiredPairs ["g"] 1 86400001 ∧
      (∀ r ∈ rep.results, r.status = "error" → (r.error).isSome) ∧
      rep.status = (if 0 < (rep.results.filter
          (fun r => decide (r.status = "error"))).length
        then "partial" else "completed") :=
  ⟨⟨by decide, by decide, by decide⟩,
   materialize_attempts_all ["g"] 1 86400001 false failClient emptyFS
     (by decide) (by decide) (by decide)⟩

/-! ## Search semantics -/

/-- Membership in a single shard's scan: an event line is kept exactly
when it is inside the window and passes the (possibly absent) filter. -/
theorem mem_scanShardLines (pat : Option String) (st et : Int) :
    ∀ (evs : List LogEvent) (ev : LogEvent),
      ev ∈ scanShardLines pat st et evs ↔
        ev ∈ evs ∧ (st ≤ ev.timestamp ∧ ev.timestamp ≤ et) ∧
          (patActive pat = true → regexTest (patVal pat) ev.message = true)
  | [], ev => by simp [scanShardLines]
  | e :: rest, ev => by
    by_cases hwin : st ≤ e.timestamp ∧ e.timestamp ≤ et
    · by_cases hskip : patActive pat = true ∧ regexTest (patVal pat) e.message = false
      · rw [show scanShardLines pat st et (e :: rest) = scanShardLines pat st et rest from by
          simp only [scanShardLines, if_pos hwin, if_pos hskip]]
        rw [mem_scanShardLines pat st et rest ev]
        constructor
        · rintro ⟨hmem, hw, hp⟩
          exact ⟨List.mem_cons_of_mem _ hmem, hw, hp⟩
        · rintro ⟨hmem, hw, hp⟩
          rcases List.mem_cons.mp hmem with hev | hmem'
          · subst hev
            rw [hskip.2] at hp
            have := hp hskip.1
            cases this
          · exact ⟨hmem', hw, hp⟩
      · rw [show scanShardLines pat st et (e :: rest) =
            e :: scanShardLines pat st et rest from by
          simp only [scanShardLines, if_pos hwin, if_neg hskip]]
        constructor
        · intro hmem
          rcases List.mem_cons.mp hmem with hev | hmem'
          · subst hev
            refine ⟨List.mem_cons_self _ _, hwin, ?_⟩
            intro hact
            by_contra hterr
            exact hskip ⟨hact, Bool.not_eq_true _ ▸ (Bool.eq_false_iff.mpr hterr)⟩
          · obtain ⟨hm, hw, hp⟩ := (mem_scanShardLines pat st et rest ev).mp hmem'
            exact ⟨List.mem_cons_of_mem _ hm, hw, hp⟩
        · rintro ⟨hmem, hw, hp⟩
          rcases List.mem_cons.mp hmem with hev | hmem'
          · subst hev
            exact List.mem_cons_self _ _
          · exact List.mem_cons_of_mem _
              ((mem_scanShardLines pat st et rest ev).mpr ⟨hmem', hw, hp⟩)
    · rw [show scanShardLines pat st et (e :: rest) = scanShardLines pat st et rest from by
        simp only [scanShardLines, if_neg hwin]]
      rw [mem_scanShardLines pat st et rest ev]
      constructor
      · rintro ⟨hmem, hw, hp⟩
        exact ⟨List.mem_cons_of_mem _ hmem, hw, hp⟩
      · rintro ⟨hmem, hw, hp⟩
        rcases List.mem_cons.mp hmem with hev | hmem'
        · subst hev
          exact absurd hw hwin
        · exact ⟨hmem', hw, hp⟩

/-- Membership in the whole scan: an occurrence in some existing shard
on the path list, plus the window and filter conditions. -/
theorem mem_searchLocalLogs (pat : Option String) (st et : Int) (fs : FS) :
    ∀ (paths : List ShardKey) (ev : LogEvent),
      ev ∈ searchLocalLogs paths pat st et fs ↔
        (∃ k ∈ paths, ∃ evs, fs.getCanon k = some evs ∧ ev ∈ evs) ∧
        (st ≤ ev.timestamp ∧ ev.timestamp ≤ et) ∧
        (patActive pat = true → regexTest (patVal pat) ev.message = true)
  | [], ev => by simp [searchLocalLogs]
  | k :: rest, ev => by
    rcases hk : fs.getCanon k with _ | evs
    · rw [show searchLocalLogs (k :: rest) pat st et fs =
          searchLocalLogs rest pat st et fs from by
        simp only [searchLocalLogs, hk]]
      rw [mem_searchLocalLogs pat st et fs rest ev]
      constructor
      · rintro ⟨⟨k', hk', hocc⟩, hw, hp⟩
        exact ⟨⟨k', List.mem_cons_of_mem _ hk', hocc⟩, hw, hp⟩
      · rintro ⟨⟨k', hk', evs', hsome, hocc⟩, hw, hp⟩
        rcases List.mem_cons.mp hk' with hkk | hk''
        · subst hkk
          rw [hk] at hsome
          cases hsome
        · exact ⟨⟨k', hk'', evs', hsome, hocc⟩, hw, hp⟩
    · rw [show searchLocalLogs (k :: rest) pat st et fs =
          scanShardLines pat st et evs ++ searchLocalLogs rest pat st et fs from by
        simp only [searchLocalLogs, hk]]
      rw [List.mem_append, mem_scanShardLines, mem_searchLocalLogs pat st et fs rest ev]
      constructor
      · rintro (⟨hm, hw, hp⟩ | ⟨⟨k', hk', hocc⟩, hw, hp⟩)
        · exact ⟨⟨k, List.mem_cons_self _ _, evs, hk, hm⟩, hw, hp⟩
        · exact ⟨⟨k', List.mem_cons_of_mem _ hk', hocc⟩, hw, hp⟩
      · rintro ⟨⟨k', hk', evs', hsome, hocc⟩, hw, hp⟩
        rcases List.mem_cons.mp hk' with hkk | hk''
        · subst hkk
          rw [hk] at hsome
          cases hsome
          exact Or.inl ⟨hocc, hw, hp⟩
        · exact Or.inr ⟨⟨k', hk'', evs', hsome, hocc⟩, hw, hp⟩

/-- C5 — For an event on an existing, well-formed shard line of a
scanned path, `query`'s scan includes it exactly when
`windowStart ≤ timestamp ≤ windowEnd` and, when a nonempty pattern is
supplied, the (once-compiled, unanchored) pattern matches the message;
with no pattern or an empty pattern, every in-window event is
included. -/
theorem query_filter_semantics (paths : List ShardKey) (pat : Option String)
    (st et : Int) (fs : FS) (k : ShardKey) (evs : List LogEvent) (ev : LogEvent)
    (hk : k ∈ paths) (hf : fs.getCanon k = some evs) (hev : ev ∈ evs) :
    ev ∈ searchLocalLogs paths pat st et fs ↔
      (st ≤ ev.timestamp ∧ ev.timestamp ≤ et) ∧
      (match pat with
       | none => True
       | some p => p = "" ∨ regexTest p ev.message = true) := by
  rw [mem_searchLocalLogs pat st et fs paths ev]
  constructor
  · rintro ⟨-, hw, hp⟩
    refine ⟨hw, ?_⟩
    cases pat with
    | none => trivial
    | some p =>
      by_cases hp0 : p = ""
      · exact Or.inl hp0
      · refine Or.inr ?_
        have hact : patActive (some p) = true := by
          simp [patActive, hp0]
        simpa [patVal] using hp hact
  · rintro ⟨hw, hp⟩
    refine ⟨⟨k, hk, evs, hf, hev⟩, hw, ?_⟩
    intro hact
    cases pat with
    | none => simp [patActive] at hact
    | some p =>
      rcases hp with hp0 | htest
      · rw [hp0] at hact
        simp [patActive] at hact
      · simpa [patVal] using htest

/-- Witness for C5 at a concrete input: one cached shard, pattern
`"ell"`, window `[0, 10]`. -/
theorem query_filter_semantics_witness :
    evHello ∈ searchLocalLogs [("g", 0)] (some "ell") 0 10 fs1Demo ↔
      ((0 : Int) ≤ evHello.timestamp ∧ evHello.timestamp ≤ 10) ∧
      (match (some "ell" : Option String) with
       | none => True
       | some p => p = "" ∨ regexTest p evHello.message = true) :=
  query_filter_semantics [("g", 0)] (some "ell") 0 10 fs1Demo ("g", 0)
    [evHello] evHello (by decide) rfl (by decide)

/-- The comparison passed to the `/search` sort is transitive. -/
theorem tsLe_trans (a b c : LogEvent) (hab : tsLe a b) (hbc : tsLe b c) :
    tsLe a c := by
  simp only [tsLe, decide_eq_true_eq] at *
  omega

/-- The comparison passed to the `/search` sort is total. -/
theorem tsLe_total (a b : LogEvent) : tsLe a b || tsLe b a := by
  simp only [tsLe]
  rcases Int.le_total a.timestamp b.timestamp with h | h <;> simp [h]

/-- Stability of the modelled sort, as filter preservation: any class
of elements that the comparison cannot distinguish keeps its relative
order, i.e. filtering the sorted output by such a class gives exactly
the filtered input. -/
theorem mergeSort_filter_stable (le : α → α → Bool) (p : α → Bool)
    (trans : ∀ (a b c : α), le a b → le b c → le a c)
    (total : ∀ (a b : α), le a b || le b a)
    (hp : ∀ a b, p a = true → p b = true → le a b = true)
    (l : List α) : (l.mergeSort le).filter p = l.filter p := by
  have hpair : (l.filter p).Pairwise (fun a b => le a b = true) := by
    apply List.pairwise_of_forall_mem_list
    intro a ha b hb
    exact hp a b (List.of_mem_filter ha) (List.of_mem_filter hb)
  have hsub : List.Sublist (l.filter p) (l.mergeSort le) :=
    List.sublist_mergeSort trans total hpair (List.filter_sublist l)
  have hsub2 : List.Sublist (l.filter p) ((l.mergeSort le).filter p) := by
    have := List.Sublist.filter p hsub
    rwa [List.filter_eq_self.mpr (fun a ha => List.of_mem_filter ha)] at this
  have hperm : List.Perm ((l.mergeSort le).filter p) (l.filter p) :=
    (List.mergeSort_perm l le).filter p
  exact (List.Sublist.eq_of_length hsub2 hperm.length_eq.symm).symm

/-- The `/search` handler with valid inputs, expressed through the
ensure loop. -/
theorem searchHandler_run (groups : List String) (st et : Int)
    (pat : Option String) (client : Client) (fs : FS)
    (hg : ¬ groups = []) (ht : ¬ (st = 0 ∨ et = 0)) :
    searchHandler groups st et pat client fs =
      (match ensureShardsLoop client (requiredPairs groups st et) fs 0 [] with
       | (Except.error _, fs', n) =>
         (SearchResp.serverError "Error searching logs", fs', n)
       | (Except.ok files, fs', n) =>
         (SearchResp.ok (sortByTimestamp
            (searchLocalLogs files pat st et fs')), fs', n)) := by
  rw [searchHandler, if_neg hg, if_neg ht]

/-- C4 — The event sequence returned by `query` is stable-sorted
ascending by timestamp: consecutive returned events have nondecreasing
timestamps, and for every timestamp value the subsequence of events
carrying it is exactly the scan-order subsequence (shard iteration
order, then within-shard line order). -/
theorem query_sorted_stable (groups : List String) (st et : Int)
    (pat : Option String) (client : Client) (fs fs' : FS)
    (files : List ShardKey) (n : Nat)
    (hg : groups ≠ []) (hst : st ≠ 0) (het : et ≠ 0)
    (h : ensureShardsLoop client (requiredPairs groups st et) fs 0 [] =
      (Except.ok files, fs', n)) :
    searchHandler groups st et pat client fs =
      (SearchResp.ok (sortByTimestamp (searchLocalLogs files pat st et fs')),
       fs', n) ∧
    List.Pairwise (fun a b => a.timestamp ≤ b.timestamp)
      (sortByTimestamp (searchLocalLogs files pat st et fs')) ∧
    ∀ t : Int,
      (sortByTimestamp (searchLocalLogs files pat st et fs')).filter
          (fun ev => decide (ev.timestamp = t)) =
        (searchLocalLogs files pat st et fs').filter
          (fun ev => decide (ev.timestamp = t)) := by
  have ht : ¬ (st = 0 ∨ et = 0) := by
    rintro (h0 | h0)
    · exact hst h0
    · exact het h0
  refine ⟨?_, ?_, ?_⟩
  · rw [searchHandler_run groups st et pat client fs hg ht, h]
  · have := List.sorted_mergeSort
      (fun a b c => tsLe_trans a b c) tsLe_total
      (searchLocalLogs files pat st et fs')
    exact this.imp (fun hab => by
      simpa [tsLe, decide_eq_true_eq] using hab)
  · intro t
    exact mergeSort_filter_stable tsLe (fun ev => decide (ev.timestamp = t))
      (fun a b c => tsLe_trans a b c) tsLe_total
      (fun a b ha hb => by
        simp only [decide_eq_true_eq] at ha hb
        simp only [tsLe, ha, hb, decide_eq_true_eq]
        omega)
      (searchLocalLogs files pat st et fs')

/-- Witness for C4 at a concrete input (filter instance at `t = 5`). -/
theorem query_sorted_stable_witness :
    searchHandler ["g"] 1 10 none okClient emptyFS =
      (SearchResp.ok (sortByTimestamp (searchLocalLogs [("g", 0)] none 1 10 fs1Demo)),
       fs1Demo, 1) ∧
    (sortByTimestamp (searchLocalLogs [("g", 0)] none 1 10 fs1Demo)).filter
        (fun ev => decide (ev.timestamp = 5)) =
      (searchLocalLogs [("g", 0)] none 1 10 fs1Demo).filter
        (fun ev => decide (ev.timestamp = 5)) := by
  obtain ⟨h1, h2, h3⟩ := query_sorted_stable ["g"] 1 10 none okClient emptyFS
    fs1Demo [("g", 0)] 1 (by decide) (by decide) (by decide) rfl
  exact ⟨h1, h3 5⟩

/-- One step of the `/search` ensure loop when the shard is cached. -/
theorem ensureShardsLoop_cons_cached (client : Client) (p0 : String × Int)
    (rest : List (String × Int)) (fs : FS) (n0 : Nat) (acc : List ShardKey)
    (evs : List LogEvent)
    (h : lookupFile fs.canon (keyOf p0.1 p0.2) = some evs) :
    ensureShardsLoop client (p0 :: rest) fs n0 acc =
      ensureShardsLoop client rest
        ((fs.mkdirFor p0.1).delTempIfExists (keyOf p0.1 p0.2)) n0
        (insertUnique acc (keyOf p0.1 p0.2)) := by
  simp only [ensureShardsLoop]
  rw [stepPre_getCanon, h]
  simp

/-- One step of the `/search` ensure loop when the shard is absent:
the download runs, and a failure aborts the whole loop. -/
theorem ensureShardsLoop_cons_dl (client : Client) (p0 : String × Int)
    (rest : List (String × Int)) (fs : FS) (n0 : Nat) (acc : List ShardKey)
    (h : lookupFile fs.canon (keyOf p0.1 p0.2) = none) :
    ensureShardsLoop client (p0 :: rest) fs n0 acc =
      (match downloadAndCacheLogs p0.1 p0.2 client
          ((fs.mkdirFor p0.1).delTempIfExists (keyOf p0.1 p0.2)) with
       | (Except.ok _, fs2, m) =>
         ensureShardsLoop client rest fs2 (n0 + m)
           (insertUnique acc (keyOf p0.1 p0.2))
       | (Except.error e, fs2, m) => (Except.error e, fs2, n0 + m)) := by
  simp only [ensureShardsLoop]
  rw [stepPre_getCanon, h]
  simp

/-- If some required shard is absent from the cache, its remote drain
fails, and no other processed pair aliases its canonical path, then
the `/search` ensure loop aborts with an error. -/
theorem ensureShardsLoop_fail (client : Client) (g : String) (d : Int) :
    ∀ (pairs : List (String × Int)) (fs : FS) (n0 : Nat) (acc : List ShardKey),
      (g, d) ∈ pairs →
      lookupFile fs.canon (keyOf g d) = none →
      (∀ p ∈ pairs, keyOf p.1 p.2 = keyOf g d → p = (g, d)) →
      (∃ e m, drainPages (client g d) = (Except.error e, m)) →
      ∃ e' fs' n', ensureShardsLoop client pairs fs n0 acc =
        (Except.error e', fs', n')
  | [], fs, n0, acc, hmem, _, _, _ => absurd hmem (List.not_mem_nil _)
  | p0 :: rest, fs, n0, acc, hmem, habs, huniq, hfail => by
    by_cases hp0 : p0 = (g, d)
    · subst hp0
      obtain ⟨e, m, hdr⟩ := hfail
      rw [ensureShardsLoop_cons_dl client (g, d) rest fs n0 acc habs]
      rw [downloadAndCacheLogs_error_eq _ _ _ _ _ _ hdr]
      exact ⟨e, _, _, rfl⟩
    · have hmem' : (g, d) ∈ rest := by
        rcases List.mem_cons.mp hmem with hh | ht
        · exact absurd hh.symm hp0
        · exact ht
      have hkey : keyOf p0.1 p0.2 ≠ keyOf g d := fun he =>
        hp0 (huniq p0 (List.mem_cons_self _ _) he)
      have huniq' : ∀ p ∈ rest, keyOf p.1 p.2 = keyOf g d → p = (g, d) :=
        fun p hp he => huniq p (List.mem_cons_of_mem _ hp) he
      rcases hc : lookupFile fs.canon (keyOf p0.1 p0.2) with _ | evs
      · rw [ensureShardsLoop_cons_dl client p0 rest fs n0 acc hc]
        rcases hdr : drainPages (client p0.1 p0.2) with ⟨res, m⟩
        cases res with
        | error e =>
          rw [downloadAndCacheLogs_error_eq _ _ _ _ _ _ hdr]
          exact ⟨e, _, _, rfl⟩
        | ok evs' =>
          by_cases hpos : evs'.length > 0
          · rw [downloadAndCacheLogs_ok_pos _ _ _ _ _ _ hdr hpos]
            refine ensureShardsLoop_fail client g d rest _ _ _ hmem' ?_ huniq' hfail
            simp only [publish_canon, setTemp_canon, mkdirFor_canon,
              delTempIfExists_canon]
            rw [lookupFile_setFile_ne _ _ _ _ (Ne.symm hkey)]
            exact habs
          · have hz : evs' = [] := List.length_eq_zero.mp (Nat.eq_zero_of_not_pos hpos)
            subst hz
            rw [downloadAndCacheLogs_ok_zero _ _ _ _ _ hdr]
            refine ensureShardsLoop_fail client g d rest _ _ _ hmem' ?_ huniq' hfail
            simp only [setCanon_canon, mkdirFor_canon, delTempIfExists_canon]
            rw [lookupFile_setFile_ne _ _ _ _ (Ne.symm hkey)]
            exact habs
      · rw [ensureShardsLoop_cons_cached client p0 rest fs n0 acc evs hc]
        refine ensureShardsLoop_fail client g d rest _ _ _ hmem' ?_ huniq' hfail
        rw [delTempIfExists_canon, mkdirFor_canon]
        exact habs

/-- Membership in the handlers' requested (group, date) pairs. -/
theorem mem_requiredPairs (groups : List String) (st et : Int)
    (g : String) (d : Int) :
    (g, d) ∈ requiredPairs groups st et ↔
      g ∈ groups ∧ d ∈ getDateRange st et := by
  simp only [requiredPairs, List.mem_flatMap, List.mem_map, Prod.mk.injEq]
  constructor
  · rintro ⟨a, ha, b, hb, hag, hbd⟩
    exact ⟨hag ▸ ha, hbd ▸ hb⟩
  · rintro ⟨hg, hd⟩
    exact ⟨g, hg, d, hd, rfl, rfl⟩

/-- C7 — During `query`, a download failure for a required shard that
is not already cached fails the whole operation (HTTP 500, no event
list), rather than skipping the shard; the sanitized group names are
assumed collision-free, matching the spec's open question on
sanitization collisions. -/
theorem query_fail_fast (groups : List String) (st et : Int)
    (pat : Option String) (client : Client) (fs : FS) (g : String) (d : Int)
    (hg : groups ≠ []) (hst : st ≠ 0) (het : et ≠ 0)
    (hmem : (g, d) ∈ requiredPairs groups st et)
    (hnocollide : ∀ g1 ∈ groups, ∀ g2 ∈ groups,
      sanitizeLogGroupName g1 = sanitizeLogGroupName g2 → g1 = g2)
    (habs : lookupFile fs.canon (keyOf g d) = none)
    (hfail : ∃ e m, drainPages (client g d) = (Except.error e, m)) :
    ∃ fs' n, searchHandler groups st et pat client fs =
      (SearchResp.serverError "Error searching logs", fs', n) := by
  have ht : ¬ (st = 0 ∨ et = 0) := by
    rintro (h0 | h0)
    · exact hst h0
    · exact het h0
  have huniq : ∀ p ∈ requiredPairs groups st et,
      keyOf p.1 p.2 = keyOf g d → p = (g, d) := by
    intro p hp he
    obtain ⟨hp1, hp2⟩ := (mem_requiredPairs groups st et p.1 p.2).mp hp
    obtain ⟨hg1, -⟩ := (mem_requiredPairs groups st et g d).mp hmem
    have hsan : sanitizeLogGroupName p.1 = sanitizeLogGroupName g := by
      have := congrArg Prod.fst he
      simpa [keyOf] using this
    have hd2 : p.2 = d := by
      have := congrArg Prod.snd he
      simpa [keyOf] using this
    have := hnocollide p.1 hp1 g hg1 hsan
    cases p
    simp only at this hd2
    rw [this, hd2]
  obtain ⟨e', fs', n', hloop⟩ := ensureShardsLoop_fail client g d
    (requiredPairs groups st et) fs 0 [] hmem habs huniq hfail
  refine ⟨fs', n', ?_⟩
  rw [searchHandler_run groups st et pat client fs hg ht, hloop]

/-- Witness for C7 at a concrete input: the only required shard is
absent and its drain fails, so the whole `/search` call returns the
500 error. -/
theorem query_fail_fast_witness :
    ∃ fs' n, searchHandler ["g"] 1 1 none failClient emptyFS =
      (SearchResp.serverError "Error searching logs", fs', n) :=
  query_fail_fast ["g"] 1 1 none failClient emptyFS "g" 0
    (by decide) (by decide) (by decide)
    ((mem_requiredPairs ["g"] 1 1 "g" 0).mpr ⟨by decide, by decide⟩)
    (by
      intro g1 h1 g2 h2 _
      simp only [List.mem_singleton] at h1 h2
      rw [h1, h2])
    rfl ⟨"boom", 1, rfl⟩

/-! ## Pruning -/

/-- Lookup through the pruning filter: a key dated before the cutoff
is gone, any other key is untouched. -/
theorem lookupFile_pruneFilter (c : Int) :
    ∀ (m : List (ShardKey × List LogEvent)) (k : ShardKey),
      lookupFile (m.filter (fun p => !decide (p.1.2 < c))) k =
        (if k.2 < c then none else lookupFile m k)
  | [], k => by simp [lookupFile]
  | (pk, pv) :: rest, k => by
    by_cases hkeep : pk.2 < c
    · have hdrop : ((pk, pv) :: rest).filter (fun p => !decide (p.1.2 < c)) =
          rest.filter (fun p => !decide (p.1.2 < c)) := by
        simp [List.filter_cons, hkeep]
      rw [hdrop, lookupFile_pruneFilter c rest k]
      by_cases hk : pk = k
      · have hklt : k.2 < c := hk ▸ hkeep
        simp [hklt]
      · simp only [lookupFile, hk, if_false]
    · have hkept : ((pk, pv) :: rest).filter (fun p => !decide (p.1.2 < c)) =
          (pk, pv) :: rest.filter (fun p => !decide (p.1.2 < c)) := by
        simp [List.filter_cons, hkeep]
      rw [hkept]
      by_cases hk : pk = k
      · have hnlt : ¬ k.2 < c := hk ▸ hkeep
        simp [lookupFile, hk, hnlt]
      · simp only [lookupFile, hk, if_false]
        rw [lookupFile_pruneFilter c rest k]

/-- C8 — With the source's `MAX_CACHE_AGE_DAYS = 10` retention,
`prune` deletes exactly the shard files whose filename-encoded date is
strictly earlier than the cutoff (`now` truncated to its UTC day
boundary minus 10 days): after pruning, a shard key dated before the
cutoff is absent and every other shard is untouched; in particular a
shard dated exactly 10 days before `now` keeps its content and a shard
dated 11 days before `now` is gone. -/
theorem prune_cutoff_boundary (now : Int) (fs : FS) (gname : String) (d : Int)
    (hroot : fs.rootExists = true) :
    (lookupFile (pruneCache now fs).1.canon (gname, d) =
      (if d < cutoffDayOf now then none else lookupFile fs.canon (gname, d))) ∧
    (lookupFile (pruneCache now fs).1.canon (gname, dayIndexOf now - 10) =
      lookupFile fs.canon (gname, dayIndexOf now - 10)) ∧
    (lookupFile (pruneCache now fs).1.canon (gname, dayIndexOf now - 11) = none) := by
  have hprune : pruneCache now fs =
      (⟨fs.rootExists,
        fs.canon.filter (fun p => !decide (p.1.2 < cutoffDayOf now)),
        fs.temp⟩,
       none,
       some (fs.canon.filter (fun p => decide (p.1.2 < cutoffDayOf now))).length) := by
    rw [pruneCache, if_neg]
    rw [hroot]
    simp
  rw [hprune]
  have hcut : cutoffDayOf now = dayIndexOf now - 10 := rfl
  refine ⟨lookupFile_pruneFilter (cutoffDayOf now) fs.canon (gname, d), ?_, ?_⟩
  · rw [lookupFile_pruneFilter (cutoffDayOf now) fs.canon (gname, dayIndexOf now - 10)]
    rw [if_neg]
    rw [hcut]
    omega
  · rw [lookupFile_pruneFilter (cutoffDayOf now) fs.canon (gname, dayIndexOf now - 11)]
    rw [if_pos]
    rw [hcut]
    omega

/-- Witness for C8 at a concrete input: `now` one millisecond into day
20, one shard at the cutoff day 10 and one at day 9. -/
theorem prune_cutoff_boundary_witness :
    (lookupFile (pruneCache (20 * 86400000 + 1)
        ⟨true, [(("g", 10), [evHello]), (("g", 9), [evHello])], []⟩).1.canon
      ("g", 9) =
      (if (9 : Int) < cutoffDayOf (20 * 86400000 + 1) then none
       else lookupFile [(("g", 10), [evHello]), (("g", 9), [evHello])] ("g", 9))) ∧
    (lookupFile (pruneCache (20 * 86400000 + 1)
        ⟨true, [(("g", 10), [evHello]), (("g", 9), [evHello])], []⟩).1.canon
      ("g", dayIndexOf (20 * 86400000 + 1) - 10) =
      lookupFile [(("g", 10), [evHello]), (("g", 9), [evHello])]
        ("g", dayIndexOf (20 * 86400000 + 1) - 10)) ∧
    (lookupFile (pruneCache (20 * 86400000 + 1)
        ⟨true, [(("g", 10), [evHello]), (("g", 9), [evHello])], []⟩).1.canon
      ("g", dayIndexOf (20 * 86400000 + 1) - 11) = none) :=
  prune_cutoff_boundary (20 * 86400000 + 1)
    ⟨true, [(("g", 10), [evHello]), (("g", 9), [evHello])], []⟩ "g" 9 rfl

/-- C9 (counterexample) — `prune` does not return the count of shards
removed: the source function returns `undefined` on every path, so a
call that removes one stale shard still returns `none` rather than the
count `1`; and with the cache root absent the early return happens
before any count is computed or logged, so nothing — not "zero
removed" — is reported. -/
theorem prune_returns_undefined_counterexample :
    (pruneCache (20 * 86400000) ⟨true, [(("g", 0), [evHello])], []⟩).1.canon = [] ∧
    (pruneCache (20 * 86400000) ⟨true, [(("g", 0), [evHello])], []⟩).2.1 = none ∧
    (none : Option Nat) ≠ some 1 ∧
    (pruneCache 0 emptyFS).2.2 = none ∧
    (none : Option Nat) ≠ some 0 :=
  ⟨by decide, by decide, by decide, by decide, by decide⟩

/-- C9 (amended) — `prune` computes the count of shards it removed and
reports it only through its completion log line, its JS return value
being `undefined` on every path: when the cache root exists, the
logged count plus the surviving shard files equals the shard files
present before; when the cache root is absent the call is a no-op that
removes nothing and logs no count. -/
theorem prune_count_logged (now : Int) (fs : FS) :
    (pruneCache now fs).2.1 = none ∧
    (fs.rootExists = false → pruneCache now fs = (fs, none, none)) ∧
    (fs.rootExists = true → ∃ c, (pruneCache now fs).2.2 = some c ∧
      c + (pruneCache now fs).1.canon.length = fs.canon.length) := by
  by_cases hroot : fs.rootExists = false
  · rw [pruneCache, if_pos hroot]
    refine ⟨rfl, fun _ => rfl, fun h => ?_⟩
    rw [h] at hroot
    simp at hroot
  · have hprune : pruneCache now fs =
        (⟨fs.rootExists,
          fs.canon.filter (fun p => !decide (p.1.2 < cutoffDayOf now)),
          fs.temp⟩,
         none,
         some (fs.canon.filter (fun p => decide (p.1.2 < cutoffDayOf now))).length) := by
      rw [pruneCache, if_neg hroot]
    rw [hprune]
    refine ⟨rfl, fun h => absurd h hroot, fun _ => ⟨_, rfl, ?_⟩⟩
    exact (List.length_eq_length_filter_add
      (fun p : ShardKey × List LogEvent =>
        decide (p.1.2 < cutoffDayOf now))).symm

/-- Witness for the amended C9 at concrete inputs: an absent cache
root (no-op, nothing logged) and a present root with one kept shard
(a zero count logged). -/
theorem prune_count_logged_witness :
    ((pruneCache 0 emptyFS).2.1 = none ∧
     (emptyFS.rootExists = false → pruneCache 0 emptyFS = (emptyFS, none, none)) ∧
     (emptyFS.rootExists = true → ∃ c, (pruneCache 0 emptyFS).2.2 = some c ∧
       c + (pruneCache 0 emptyFS).1.canon.length = emptyFS.canon.length)) ∧
    ((pruneCache 0 fs1Demo).2.1 = none ∧
     (fs1Demo.rootExists = false → pruneCache 0 fs1Demo = (fs1Demo, none, none)) ∧
     (fs1Demo.rootExists = true → ∃ c, (pruneCache 0 fs1Demo).2.2 = some c ∧
       c + (pruneCache 0 fs1Demo).1.canon.length = fs1Demo.canon.length)) :=
  ⟨prune_count_logged 0 emptyFS, prune_count_logged 0 fs1Demo⟩

/-- C10 — A `materialize` or `query` request whose `startTime` or
`endTime` equals `0` (a valid epoch-millisecond instant) is rejected
with `"startTime and endTime are required"` before any remote or
filesystem I/O — the JS presence check `!startTime || !endTime` treats
the number `0` as missing — provided the group list itself passes its
(earlier) check. -/
theorem zero_time_rejected (groups : List String) (st et : Int)
    (force : Bool) (pat : Option String) (client : Client) (fs : FS)
    (hg : groups ≠ []) (hzero : st = 0 ∨ et = 0) :
    downloadHandler groups st et force client fs =
      (DlResp.badRequest "startTime and endTime are required", fs, 0) ∧
    searchHandler groups st et pat client fs =
      (SearchResp.badRequest "startTime and endTime are required", fs, 0) := by
  constructor
  · rw [downloadHandler, if_neg hg, if_pos hzero]
  · rw [searchHandler, if_neg hg, if_pos hzero]

/-- Witness for C10 at a concrete input: `startTime = 0`. -/
theorem zero_time_rejected_witness :
    downloadHandler ["g"] 0 5 false okClient emptyFS =
      (DlResp.badRequest "startTime and endTime are required", emptyFS, 0) ∧
    searchHandler ["g"] 0 5 none okClient emptyFS =
      (SearchResp.badRequest "startTime and endTime are required", emptyFS, 0) :=
  zero_time_rejected ["g"] 0 5 false none okClient emptyFS
    (by decide) (Or.inl rfl)
